import Mathlib

/-!
Verification of the vboxmanage.js command-construction and output-parsing
pipeline (src/index.js).  JavaScript strings are shallowly embedded as
`List Char`; the JS string primitives used by the source (`indexOf`,
`lastIndexOf`, `substr`, `substring`, `slice`, `split`, `trim`, regex
replace / test) are modelled below, and each source function is translated
on top of them.
-/

set_option autoImplicit false

/-- Coerce a Lean string literal to the `List Char` representation used for
JavaScript strings throughout this development. -/
def str (s : String) : List Char := s.data

/-- The double-quote character. -/
def chQuote : Char := Char.ofNat 34

/-- The backtick character. -/
def chBacktick : Char := Char.ofNat 96

/-- The single-quote (apostrophe) character. -/
def chApos : Char := Char.ofNat 39

/-- Membership in the JavaScript regex `\s` class (whitespace), by code point. -/
def isJsWhitespace (c : Char) : Bool :=
  c.toNat ∈ [0x09, 0x0A, 0x0B, 0x0C, 0x0D, 0x20, 0xA0, 0x1680,
    0x2000, 0x2001, 0x2002, 0x2003, 0x2004, 0x2005, 0x2006, 0x2007,
    0x2008, 0x2009, 0x200A, 0x2028, 0x2029, 0x202F, 0x205F, 0x3000, 0xFEFF]

/-- JS `String.prototype.trimStart` (as performed by `trim`): drop leading whitespace. -/
def jsTrimStart (s : List Char) : List Char := s.dropWhile isJsWhitespace

/-- Drop trailing whitespace, as JS `replace(/\s+$/, '')` and the tail half of `trim`. -/
def jsTrimEnd (s : List Char) : List Char := (s.reverse.dropWhile isJsWhitespace).reverse

/-- JS `String.prototype.trim`: drop whitespace from both ends. -/
def jsTrim (s : List Char) : List Char := jsTrimEnd (jsTrimStart s)

/-- Index of the first occurrence of a character, if any. -/
def firstIdx (c : Char) : List Char → Option Nat
  | [] => none
  | x :: rest => if x = c then some 0 else (firstIdx c rest).map (· + 1)

/-- JS `String.prototype.indexOf` for a single character: `-1` when absent. -/
def jsIndexOfChar (s : List Char) (c : Char) : Int :=
  match firstIdx c s with
  | some n => (n : Int)
  | none => -1

/-- Index of the last occurrence of a character, if any. -/
def lastIdx (c : Char) : List Char → Option Nat
  | [] => none
  | x :: rest =>
    match lastIdx c rest with
    | some n => some (n + 1)
    | none => if x = c then some 0 else none

/-- JS `String.prototype.lastIndexOf` for a single character: `-1` when absent. -/
def jsLastIndexOfChar (s : List Char) (c : Char) : Int :=
  match lastIdx c s with
  | some n => (n : Int)
  | none => -1

/-- Clamping of a JS `substr` start index: a negative start counts from the
end of the string, and the result lies between 0 and the string length. -/
def jsClampStart (s : List Char) (start : Int) : Int :=
  if start < 0 then max ((s.length : Int) + start) 0 else min start (s.length : Int)

/-- JS `String.prototype.substr(start, length)`: a negative start counts from
the end, a negative length yields the empty string. -/
def jsSubstr (s : List Char) (start len : Int) : List Char :=
  (s.drop (jsClampStart s start).toNat).take
    (max 0 (min len ((s.length : Int) - jsClampStart s start))).toNat

/-- JS `String.prototype.substr(start)` (one-argument form): the rest of the
string from `start`, with a negative start counting from the end. -/
def jsSubstrFrom (s : List Char) (start : Int) : List Char :=
  s.drop (jsClampStart s start).toNat

/-- Clamping of a JS `substring` index into the range 0..length. -/
def jsClampIdx (s : List Char) (a : Int) : Int :=
  max 0 (min a (s.length : Int))

/-- JS `String.prototype.substring(a, b)`: clamps both indices into range and
swaps them when `a > b`. -/
def jsSubstring (s : List Char) (a b : Int) : List Char :=
  (s.take (max (jsClampIdx s a) (jsClampIdx s b)).toNat).drop
    (min (jsClampIdx s a) (jsClampIdx s b)).toNat

/-- JS `String.prototype.split(sep)` for a one-character separator. -/
def splitChar (sep : Char) : List Char → List (List Char)
  | [] => [[]]
  | c :: rest =>
    if c = sep then [] :: splitChar sep rest
    else
      match splitChar sep rest with
      | [] => [[c]]
      | h :: t => (c :: h) :: t

/-- The character class of the POSIX-branch escaping regex in src/index.js
line 30: `([ \t\\|;&"`$*])`. -/
def specialsB : List Char :=
  [' ', '\t', '\\', '|', ';', '&', chQuote, chBacktick, '$', '*']

/-- POSIX-branch `escapeArg` (src/index.js lines 29-31):
`arg.replace(/([ \t\\|;&"`$*])/g, '\\$1')` — prefix every occurrence of a
character of `specialsB` with a backslash. -/
def escapeArgB : List Char → List Char
  | [] => []
  | c :: rest => (if c ∈ specialsB then ['\\', c] else [c]) ++ escapeArgB rest

/-- The test of the Windows-branch `escapeArg` (src/index.js line 21):
`/\s|[\\"&]/.test(arg)`. -/
def testA (arg : List Char) : Bool :=
  arg.any (fun c => isJsWhitespace c || c = '\\' || c = chQuote || c = '&')

/-- Body replacement of the Windows-branch `escapeArg` (line 23):
`arg.replace(/"/g, '"""')`. -/
def tripleQuoteBody : List Char → List Char
  | [] => []
  | c :: rest =>
    (if c = chQuote then [chQuote, chQuote, chQuote] else [c]) ++ tripleQuoteBody rest

/-- Windows-branch `escapeArg` (src/index.js lines 20-24): return the argument
unchanged when it matches no special character, else wrap it in double quotes
with every embedded double quote tripled. -/
def escapeArgA (arg : List Char) : List Char :=
  if !testA arg then arg
  else chQuote :: tripleQuoteBody arg ++ [chQuote]

/-- Escaping a special character inside a context, stated for any split of
the argument around one occurrence. -/
theorem escapeArgB_append_special (xs ys : List Char) (c : Char)
    (h : c ∈ specialsB) :
    escapeArgB (xs ++ c :: ys) = escapeArgB xs ++ '\\' :: c :: escapeArgB ys := by
  induction xs with
  | nil => simp [escapeArgB, h]
  | cons x xs ih => simp [escapeArgB, ih]

/-- Arguments with no special character pass through unchanged. -/
theorem escapeArgB_of_no_special (arg : List Char)
    (h : ∀ c ∈ arg, c ∉ specialsB) : escapeArgB arg = arg := by
  induction arg with
  | nil => rfl
  | cons x xs ih =>
    have hx : x ∉ specialsB := h x (List.mem_cons_self x xs)
    simp [escapeArgB, hx]
    exact ih fun c hc => h c (List.mem_cons_of_mem x hc)

/-- C1 counterexample: the POSIX escaper does escape the asterisk, contrary
to the claim that asterisks pass through unescaped. -/
theorem c1_counterexample :
    escapeArgB (str "*") = str "\\*" ∧ escapeArgB (str "*") ≠ str "*" := by
  constructor <;> decide

/-- C1 (amended): the POSIX escaper backslash-escapes exactly the occurrences
of characters in the set {space, tab, backslash, pipe, semicolon, ampersand,
double-quote, backtick, dollar, asterisk}; every character outside that set
(including single quotes) passes through unescaped. -/
theorem c1_posix_escape_set :
    (∀ (xs ys : List Char) (c : Char), c ∈ specialsB →
      escapeArgB (xs ++ c :: ys) = escapeArgB xs ++ '\\' :: c :: escapeArgB ys)
    ∧ (∀ arg : List Char, (∀ c ∈ arg, c ∉ specialsB) → escapeArgB arg = arg)
    ∧ specialsB = [' ', '\t', '\\', '|', ';', '&', chQuote, chBacktick, '$', '*']
    ∧ chApos ∉ specialsB ∧ '*' ∈ specialsB :=
  ⟨escapeArgB_append_special, escapeArgB_of_no_special, rfl, by decide, by decide⟩

/-- C1 witness: the amended theorem applied at concrete inputs. -/
theorem c1_posix_escape_set_witness :
    escapeArgB (str "a" ++ '$' :: str "b") =
      escapeArgB (str "a") ++ '\\' :: '$' :: escapeArgB (str "b")
    ∧ escapeArgB (str "abc") = str "abc" :=
  ⟨c1_posix_escape_set.1 (str "a") (str "b") '$' (by decide),
   c1_posix_escape_set.2.1 (str "abc") (by decide)⟩

/-- A JavaScript value as it may appear in the options mapping passed to
`VBoxManage.manage` (booleans, numbers, or strings). -/
inductive JVal where
  | jbool : Bool → JVal
  | jnum : Int → JVal
  | jstr : List Char → JVal
deriving DecidableEq, Repr

/-- The option loop of `VBoxManage.manage` (src/index.js lines 56-62) on the
POSIX branch: for each `[option, value]` entry push `'--' + option`; when the
value is not the boolean `true`, push `escapeArg(value)`.  `escapeArg` is
`String.prototype.replace`-based, so a non-string value (a boolean or a
number) raises `TypeError: arg.replace is not a function`, modelled as
`none`. -/
def manageBAux (acc : List (List Char)) : List (List Char × JVal) → Option (List (List Char))
  | [] => some acc
  | (name, v) :: rest =>
    match v with
    | .jbool true => manageBAux (acc ++ ['-' :: '-' :: name]) rest
    | .jstr s => manageBAux (acc ++ ['-' :: '-' :: name] ++ [escapeArgB s]) rest
    | _ => none

/-- `VBoxManage.manage` (src/index.js lines 43-62) on the POSIX branch, up to
the point where the escaped token array is complete: escape every positional
token in place, then process the options mapping in insertion order.  `none`
models the synchronous `TypeError` thrown by `escapeArg` on a non-string,
non-`true` option value. -/
def manageB (command : List (List Char)) (options : List (List Char × JVal)) :
    Option (List (List Char)) :=
  manageBAux (command.map escapeArgB) options

/-- The tokens that the option loop appends for options whose values are the
boolean `true` or a string, in insertion order. -/
def optionTokens : List (List Char × JVal) → List (List Char)
  | [] => []
  | (name, v) :: rest =>
    ('-' :: '-' :: name) ::
      ((match v with
        | .jbool true => []
        | .jstr s => [escapeArgB s]
        | _ => []) ++ optionTokens rest)

/-- Every option value is either the boolean `true` or a string. -/
def GoodOptions (options : List (List Char × JVal)) : Prop :=
  ∀ p ∈ options, p.2 = JVal.jbool true ∨ ∃ s, p.2 = JVal.jstr s

theorem manageBAux_good (options : List (List Char × JVal)) (acc : List (List Char))
    (h : GoodOptions options) :
    manageBAux acc options = some (acc ++ optionTokens options) := by
  induction options generalizing acc with
  | nil => simp [manageBAux, optionTokens]
  | cons p rest ih =>
    obtain ⟨name, v⟩ := p
    have hrest : GoodOptions rest := fun q hq => h q (List.mem_cons_of_mem _ hq)
    rcases h ⟨name, v⟩ (List.mem_cons_self _ _) with hv | ⟨s, hv⟩ <;>
      simp only at hv <;> subst hv <;>
      simp [manageBAux, optionTokens, ih _ hrest]

/-- C2 counterexample: an option value of boolean `false` does not produce a
`--force` token followed by an escaped value; the POSIX-branch escaper throws
a `TypeError` (`replace` is not a function on a boolean), so no token array is
produced at all. -/
theorem c2_counterexample :
    manageB [] [(str "force", JVal.jbool false)] = none := rfl

/-- C2 (amended): for every token list and options mapping whose values are
each either the boolean `true` or a string, the output token sequence is each
positional token escaped in its original order, then for each option in
insertion order a `--<optionName>` token with the name never escaped, followed
— when the value is a string — by the escaped value as one additional token;
a value of exactly boolean `true` contributes the flag token alone.  A
non-string value other than `true` (boolean `false` or a number) instead
raises a `TypeError` from the escaper, so no token sequence results. -/
theorem c2_manage_token_sequence (command : List (List Char))
    (options : List (List Char × JVal)) (h : GoodOptions options) :
    manageB command options = some (command.map escapeArgB ++ optionTokens options)
    ∧ (∀ (name : List Char),
        optionTokens [(name, JVal.jbool true)] = ['-' :: '-' :: name])
    ∧ (∀ (name s : List Char),
        optionTokens [(name, JVal.jstr s)] = ['-' :: '-' :: name, escapeArgB s])
    ∧ (∀ (name : List Char) (v : JVal) (rest : List (List Char × JVal)),
        optionTokens ((name, v) :: rest) =
          ('-' :: '-' :: name) ::
            ((match v with
              | .jbool true => []
              | .jstr s => [escapeArgB s]
              | _ => []) ++ optionTokens rest)) :=
  ⟨manageBAux_good options (command.map escapeArgB) h,
   fun _ => rfl, fun _ _ => rfl, fun _ _ _ => rfl⟩

/-- C2 witness: the amended theorem applied at a concrete command and options
mapping, matching the spec's `{force: true}` and `{target-directory: "/tmp"}`
examples. -/
theorem c2_manage_token_sequence_witness :
    manageB [str "showvminfo", str "my vm"]
        [(str "force", JVal.jbool true), (str "target-directory", JVal.jstr (str "/tmp"))] =
      some [str "showvminfo", str "my\\ vm", str "--force",
            str "--target-directory", str "/tmp"] := by
  have h := (c2_manage_token_sequence [str "showvminfo", str "my vm"]
    [(str "force", JVal.jbool true), (str "target-directory", JVal.jstr (str "/tmp"))]
    (by
      intro p hp
      simp only [List.mem_cons, List.not_mem_nil, or_false] at hp
      rcases hp with rfl | rfl
      · exact Or.inl rfl
      · exact Or.inr ⟨str "/tmp", rfl⟩)).1
  rw [h]; decide

/-- Outcome of one attempt of the `getIPAddress` polling coordinator:
the property value is returned, the coordinator gives up and returns
`undefined`, or one further attempt is scheduled after `delay` milliseconds
with the recomputed timeout. -/
inductive PollStep where
  | value : PollStep
  | absent : PollStep
  | retryAfter : Int → Int → PollStep
deriving DecidableEq, Repr

/-- The retry interval of `VBoxManage.getIPAddress` (src/index.js line 211). -/
def retryDuration : Int := 1000

/-- One attempt of `VBoxManage.getIPAddress` (src/index.js lines 204-241).
`timeout` is the timeout argument, `entryTime` is `Date.now()` at entry (so
`finishLine = entryTime + timeout`), `checkTime` is `Date.now()` when the
property reply is examined, `wakeTime` is `Date.now()` inside the
`setTimeout` callback, and `present` tells whether the guest property was
set.  The attempt returns the value when present; otherwise it gives up when
`timeout > -1 && checkTime >= finishLine - retryDuration`, and otherwise
schedules exactly one retry after 1000 ms with timeout recomputed to
`finishLine - wakeTime` in the bounded case. -/
def getIPAddressStep (timeout entryTime checkTime wakeTime : Int)
    (present : Bool) : PollStep :=
  let finishLine := entryTime + timeout
  if present then .value
  else if timeout > -1 ∧ checkTime ≥ finishLine - retryDuration then .absent
  else .retryAfter 1000 (if timeout > -1 then finishLine - wakeTime else timeout)

/-- C3: for a nonnegative timeout, an absent attempt gives up exactly when the
check time is at or past the deadline minus one 1000 ms retry interval, and
otherwise schedules exactly one retry after the fixed interval with the
timeout recomputed as deadline minus the wake time; for a negative timeout an
absent attempt always schedules a retry with the same (still negative)
timeout, so the coordinator never gives up while the property stays absent. -/
theorem c3_polling_coordinator (timeout entryTime checkTime wakeTime : Int) :
    (timeout ≥ 0 → checkTime ≥ entryTime + timeout - retryDuration →
      getIPAddressStep timeout entryTime checkTime wakeTime false = .absent)
    ∧ (timeout ≥ 0 → checkTime < entryTime + timeout - retryDuration →
      getIPAddressStep timeout entryTime checkTime wakeTime false =
        .retryAfter 1000 (entryTime + timeout - wakeTime))
    ∧ (timeout < 0 →
      getIPAddressStep timeout entryTime checkTime wakeTime false =
        .retryAfter 1000 timeout
      ∧ getIPAddressStep timeout entryTime checkTime wakeTime false ≠ .absent)
    ∧ getIPAddressStep timeout entryTime checkTime wakeTime true = .value := by
  refine ⟨fun h1 h2 => ?_, fun h1 h2 => ?_, fun h1 => ⟨?_, ?_⟩, ?_⟩ <;>
    simp only [getIPAddressStep, retryDuration] at * <;>
    first
      | (rw [if_neg Bool.false_ne_true, if_pos (by omega : timeout > -1 ∧
          checkTime ≥ entryTime + timeout - 1000)])
      | skip
  · rw [if_neg Bool.false_ne_true,
      if_neg (by omega : ¬(timeout > -1 ∧ checkTime ≥ entryTime + timeout - 1000)),
      if_pos (by omega : timeout > -1)]
  · rw [if_neg Bool.false_ne_true,
      if_neg (by omega : ¬(timeout > -1 ∧ checkTime ≥ entryTime + timeout - 1000)),
      if_neg (by omega : ¬timeout > -1)]
  · rw [if_neg Bool.false_ne_true,
      if_neg (by omega : ¬(timeout > -1 ∧ checkTime ≥ entryTime + timeout - 1000)),
      if_neg (by omega : ¬timeout > -1)]
    simp
  · rfl

/-- C3 witness: the theorem applied at the spec's bounded example (timeout
500 ms, property never present: give up on the first absent attempt) and at
an unbounded attempt. -/
theorem c3_polling_coordinator_witness :
    getIPAddressStep 500 0 0 1000 false = .absent
    ∧ getIPAddressStep (-1) 0 0 1000 false = .retryAfter 1000 (-1) :=
  ⟨(c3_polling_coordinator 500 0 0 1000).1 (by decide) (by decide),
   ((c3_polling_coordinator (-1) 0 0 1000).2.2.1 (by decide)).1⟩

/-- Collapse of a guest info query outcome into a registration boolean:
`VBoxManage.isRegistered` (src/index.js lines 256-261) is
`getInfo(vmname).then(() => true).catch(() => false)`.  The outcome of the
underlying query is modelled as an `Except`: `ok` carries the parsed info
mapping, `error` carries the failure. -/
def isRegisteredOf (r : Except (List Char) (List (List Char × List Char))) : Bool :=
  match r with
  | .ok _ => true
  | .error _ => false

/-- C7: `isRegistered` resolves to `true` exactly when the underlying info
query succeeds and to `false` exactly when it fails for any reason; being a
total boolean-valued function of the query outcome, it never propagates the
underlying failure. -/
theorem c7_isRegistered_collapse
    (r : Except (List Char) (List (List Char × List Char))) :
    (isRegisteredOf r = true ↔ ∃ info, r = .ok info)
    ∧ (isRegisteredOf r = false ↔ ∃ e, r = .error e) := by
  cases r with
  | ok info => simp [isRegisteredOf]
  | error e => simp [isRegisteredOf]

/-- Modelled from the spec (platform-A unescaping convention, not code of
this repository): after stripping the enclosing quote pair, turn each run of
three consecutive double quotes back into one, scanning left to right. -/
def collapseTriples : List Char → List Char
  | [] => []
  | [c] => [c]
  | [c, c2] => [c, c2]
  | c :: c2 :: c3 :: rest =>
    if c = chQuote ∧ c2 = chQuote ∧ c3 = chQuote then chQuote :: collapseTriples rest
    else c :: collapseTriples (c2 :: c3 :: rest)
termination_by l => l.length

theorem collapseTriples_cons_ne (c : Char) (l : List Char) (hc : c ≠ chQuote) :
    collapseTriples (c :: l) = c :: collapseTriples l := by
  cases l with
  | nil => simp [collapseTriples]
  | cons x l2 =>
    cases l2 with
    | nil => simp [collapseTriples]
    | cons y l3 =>
      have : ¬(c = chQuote ∧ x = chQuote ∧ y = chQuote) := fun h => hc h.1
      simp [collapseTriples, this]

/-- Modelled from the spec: strip the one enclosing pair of double quotes. -/
def stripEnclosingQuotes (s : List Char) : List Char :=
  if s.length ≥ 2 ∧ s.head? = some chQuote ∧ s.getLast? = some chQuote then
    (s.drop 1).take ((s.drop 1).length - 1)
  else s

/-- Modelled from the spec: the platform-A unescaping convention — strip the
enclosing double quotes, then collapse each triple of double quotes to one. -/
def unescapeA (s : List Char) : List Char :=
  collapseTriples (stripEnclosingQuotes s)

theorem collapseTriples_tripleQuoteBody (arg : List Char) :
    collapseTriples (tripleQuoteBody arg) = arg := by
  induction arg with
  | nil => simp [tripleQuoteBody, collapseTriples]
  | cons c rest ih =>
    by_cases hc : c = chQuote
    · subst hc
      simp only [tripleQuoteBody, if_pos rfl, List.cons_append, List.nil_append]
      simp [collapseTriples, ih]
    · simp only [tripleQuoteBody, if_neg hc, List.cons_append, List.nil_append]
      rw [collapseTriples_cons_ne c _ hc, ih]

theorem take_append_len {α : Type} (l1 l2 : List α) : (l1 ++ l2).take l1.length = l1 := by
  induction l1 with
  | nil => simp
  | cons x xs ih => simp [ih]

theorem drop_append_len {α : Type} (l1 l2 : List α) : (l1 ++ l2).drop l1.length = l2 := by
  induction l1 with
  | nil => simp
  | cons x xs ih => simp [ih]

/-- C8: for every string containing a double quote, escaping with the
Windows-branch escaper and then unescaping by the platform-A convention
(strip the enclosing quote pair, collapse quote triples) reproduces the
original string. -/
theorem c8_platformA_roundtrip (arg : List Char) (h : chQuote ∈ arg) :
    unescapeA (escapeArgA arg) = arg := by
  have htest : testA arg = true := List.any_eq_true.2 ⟨chQuote, h, by decide⟩
  have hesc : escapeArgA arg = chQuote :: tripleQuoteBody arg ++ [chQuote] := by
    simp [escapeArgA, htest]
  have hcond : (chQuote :: (tripleQuoteBody arg ++ [chQuote])).length ≥ 2
      ∧ (chQuote :: (tripleQuoteBody arg ++ [chQuote])).head? = some chQuote
      ∧ (chQuote :: (tripleQuoteBody arg ++ [chQuote])).getLast? = some chQuote := by
    refine ⟨by simp, rfl, ?_⟩
    rw [show chQuote :: (tripleQuoteBody arg ++ [chQuote]) =
      (chQuote :: tripleQuoteBody arg) ++ [chQuote] from rfl]
    exact List.getLast?_concat _
  have hstrip : stripEnclosingQuotes (chQuote :: tripleQuoteBody arg ++ [chQuote]) =
      tripleQuoteBody arg := by
    rw [stripEnclosingQuotes]
    split
    · have hlen : (tripleQuoteBody arg ++ [chQuote]).length - 1 =
          (tripleQuoteBody arg).length := by
        simp only [List.length_append, List.length_cons, List.length_nil]
        omega
      have hdrop : List.drop 1 (chQuote :: tripleQuoteBody arg ++ [chQuote]) =
          tripleQuoteBody arg ++ [chQuote] := rfl
      rw [hdrop, hlen]
      exact take_append_len _ _
    · next hfalse => exact absurd hcond hfalse
  rw [unescapeA, hesc, hstrip, collapseTriples_tripleQuoteBody]

/-- C8 witness: the round-trip theorem applied at a concrete quoted argument. -/
theorem c8_platformA_roundtrip_witness :
    unescapeA (escapeArgA (str "a\"b")) = str "a\"b" :=
  c8_platformA_roundtrip (str "a\"b") (by decide)

theorem firstIdx_append_not_mem (c : Char) (k v : List Char) (h : c ∉ k) :
    firstIdx c (k ++ c :: v) = some k.length := by
  induction k with
  | nil => simp [firstIdx]
  | cons x xs ih =>
    have hx : ¬x = c := by
      rintro rfl
      exact h (List.mem_cons_self x xs)
    have hxs : c ∉ xs := fun hm => h (List.mem_cons_of_mem x hm)
    simp [firstIdx, hx, ih hxs]

theorem jsIndexOfChar_append_not_mem (c : Char) (k v : List Char) (h : c ∉ k) :
    jsIndexOfChar (k ++ c :: v) c = (k.length : Int) := by
  rw [jsIndexOfChar, firstIdx_append_not_mem c k v h]

theorem jsSubstrFrom_after (pre post : List Char) (c : Char) :
    jsSubstrFrom (pre ++ c :: post) ((pre.length : Int) + 1) = post := by
  have hlen : ((pre ++ c :: post).length : Int) = pre.length + 1 + post.length := by
    simp only [List.length_append, List.length_cons]
    push_cast
    omega
  rw [jsSubstrFrom, jsClampStart,
    if_neg (by omega : ¬((pre.length : Int) + 1 < 0)),
    show min ((pre.length : Int) + 1) ((pre ++ c :: post).length : Int) =
      (pre.length : Int) + 1 from by rw [hlen]; omega,
    show ((pre.length : Int) + 1).toNat = pre.length + 1 from by omega,
    show pre ++ c :: post = (pre ++ [c]) ++ post from by simp,
    show pre.length + 1 = (pre ++ [c]).length from by simp]
  exact drop_append_len _ _

/-- Property-reply parser of `VBoxManage.getProperty` (src/index.js lines
85-97): take the portion of stdout after the first colon
(`stdout.substr(stdout.indexOf(':') + 1)`), trim it, and map the literal
reply `No value set!` to `undefined` (modelled as `none`). -/
def getPropertyParse (stdout : List Char) : Option (List Char) :=
  if jsTrim (jsSubstrFrom stdout (jsIndexOfChar stdout ':' + 1)) = str "No value set!"
  then none
  else some (jsTrim (jsSubstrFrom stdout (jsIndexOfChar stdout ':' + 1)))

/-- C6: for every stdout text whose first colon separates a colon-free prefix
from a remainder, the property parser returns the remainder trimmed of
surrounding whitespace, except that a trimmed remainder equal to the sentinel
`No value set!` yields an absent result. -/
theorem c6_getProperty_parse (pre post : List Char) (h : ':' ∉ pre) :
    getPropertyParse (pre ++ ':' :: post) =
      if jsTrim post = str "No value set!" then none else some (jsTrim post) := by
  rw [getPropertyParse, jsIndexOfChar_append_not_mem ':' pre post h, jsSubstrFrom_after]

/-- C6 witness: the theorem applied at the spec's two examples. -/
theorem c6_getProperty_parse_witness :
    getPropertyParse (str "Value: 10.0.2.15\n") = some (str "10.0.2.15")
    ∧ getPropertyParse (str "Value: No value set!\n") = none := by
  constructor
  · rw [show str "Value: 10.0.2.15\n" = str "Value" ++ ':' :: str " 10.0.2.15\n" from by decide,
      c6_getProperty_parse (str "Value") (str " 10.0.2.15\n") (by decide)]
    decide
  · rw [show str "Value: No value set!\n" = str "Value" ++ ':' :: str " No value set!\n" from by decide,
      c6_getProperty_parse (str "Value") (str " No value set!\n") (by decide)]
    decide

/-- Result record of `VBoxManage.stat` (src/index.js lines 533-546).  The JS
field `exists` is named `pathExists` here because `exists` is reserved in
Lean. -/
structure StatResult where
  pathExists : Bool
  isDirectory : Bool
  isFile : Bool
  isLink : Bool
deriving DecidableEq, Repr

/-- Match of the regex `found, type unknown \([0-9]+\)` anchored at the start
of the list: the literal text, then one or more digits, then a closing
parenthesis. -/
def linkPatternAt (s : List Char) : Bool :=
  (str "found, type unknown (").isPrefixOf s &&
    (let rest := s.drop (str "found, type unknown (").length
     let ds := rest.takeWhile Char.isDigit
     !ds.isEmpty && (rest.drop ds.length).head? == some ')')

/-- Unanchored search for `linkPatternAt`, as regex `test` does. -/
def containsLinkPattern : List Char → Bool
  | [] => false
  | c :: rest => linkPatternAt (c :: rest) || containsLinkPattern rest

/-- Unanchored substring search, as regex `test` on a literal pattern. -/
def containsSub (pat : List Char) : List Char → Bool
  | [] => pat.isPrefixOf []
  | c :: rest => pat.isPrefixOf (c :: rest) || containsSub pat rest

/-- Stdout classifier of `VBoxManage.stat` (src/index.js lines 531-547):
match, in priority order, the suffix `Is a directory`
(`/Is a directory$/.test`), the substring `Is a file`, the pattern
`found, type unknown (<digits>)`, then any nonempty trimmed text, and
finally report a nonexistent path. -/
def statClassify (stdout : List Char) : StatResult :=
  if (str "Is a directory").isSuffixOf stdout then
    ⟨true, true, false, false⟩
  else if containsSub (str "Is a file") stdout then
    ⟨true, false, true, false⟩
  else if containsLinkPattern stdout then
    ⟨true, false, false, true⟩
  else if jsTrim stdout ≠ [] then
    ⟨true, false, false, false⟩
  else
    ⟨false, false, false, false⟩

/-- C5: the stat parser classifies stdout by the first matching rule in the
fixed order directory-suffix, file-substring, link-pattern, nonempty trimmed
text, empty; and for every input at most one of the three kind flags is true
while any true kind flag implies the exists flag. -/
theorem c5_stat_classifier (s : List Char) :
    ((str "Is a directory").isSuffixOf s = true →
      statClassify s = ⟨true, true, false, false⟩)
    ∧ ((str "Is a directory").isSuffixOf s = false →
        containsSub (str "Is a file") s = true →
      statClassify s = ⟨true, false, true, false⟩)
    ∧ ((str "Is a directory").isSuffixOf s = false →
        containsSub (str "Is a file") s = false →
        containsLinkPattern s = true →
      statClassify s = ⟨true, false, false, true⟩)
    ∧ ((str "Is a directory").isSuffixOf s = false →
        containsSub (str "Is a file") s = false →
        containsLinkPattern s = false → jsTrim s ≠ [] →
      statClassify s = ⟨true, false, false, false⟩)
    ∧ ((str "Is a directory").isSuffixOf s = false →
        containsSub (str "Is a file") s = false →
        containsLinkPattern s = false → jsTrim s = [] →
      statClassify s = ⟨false, false, false, false⟩)
    ∧ (((statClassify s).isDirectory = true → (statClassify s).isFile = false
          ∧ (statClassify s).isLink = false)
      ∧ ((statClassify s).isFile = true → (statClassify s).isDirectory = false
          ∧ (statClassify s).isLink = false)
      ∧ ((statClassify s).isLink = true → (statClassify s).isDirectory = false
          ∧ (statClassify s).isFile = false))
    ∧ (((statClassify s).isDirectory = true ∨ (statClassify s).isFile = true
          ∨ (statClassify s).isLink = true) → (statClassify s).pathExists = true) := by
  have hcases : statClassify s = ⟨true, true, false, false⟩
      ∨ statClassify s = ⟨true, false, true, false⟩
      ∨ statClassify s = ⟨true, false, false, true⟩
      ∨ statClassify s = ⟨true, false, false, false⟩
      ∨ statClassify s = ⟨false, false, false, false⟩ := by
    rw [statClassify]
    split
    · exact Or.inl rfl
    · split
      · exact Or.inr (Or.inl rfl)
      · split
        · exact Or.inr (Or.inr (Or.inl rfl))
        · split
          · exact Or.inr (Or.inr (Or.inr (Or.inl rfl)))
          · exact Or.inr (Or.inr (Or.inr (Or.inr rfl)))
  refine ⟨fun h1 => ?_, fun h1 h2 => ?_, fun h1 h2 h3 => ?_, fun h1 h2 h3 h4 => ?_,
    fun h1 h2 h3 h4 => ?_, ?_, ?_⟩
  · rw [statClassify, if_pos h1]
  · rw [statClassify,
      if_neg (by simp [h1] : ¬((str "Is a directory").isSuffixOf s = true)),
      if_pos h2]
  · rw [statClassify,
      if_neg (by simp [h1] : ¬((str "Is a directory").isSuffixOf s = true)),
      if_neg (by simp [h2] : ¬(containsSub (str "Is a file") s = true)),
      if_pos h3]
  · rw [statClassify,
      if_neg (by simp [h1] : ¬((str "Is a directory").isSuffixOf s = true)),
      if_neg (by simp [h2] : ¬(containsSub (str "Is a file") s = true)),
      if_neg (by simp [h3] : ¬(containsLinkPattern s = true)),
      if_pos h4]
  · rw [statClassify,
      if_neg (by simp [h1] : ¬((str "Is a directory").isSuffixOf s = true)),
      if_neg (by simp [h2] : ¬(containsSub (str "Is a file") s = true)),
      if_neg (by simp [h3] : ¬(containsLinkPattern s = true)),
      if_neg (by simp [h4] : ¬(jsTrim s ≠ []))]
  · rcases hcases with h | h | h | h | h <;> rw [h] <;> exact by decide
  · rcases hcases with h | h | h | h | h <;> rw [h] <;> exact by decide

/-- C5 witness: the classifier theorem applied at the two examples of the spec —
stdout ending in `Is a directory`, and empty stdout. -/
theorem c5_stat_classifier_witness :
    statClassify (str "/tmp/x: Is a directory") = ⟨true, true, false, false⟩
    ∧ statClassify [] = ⟨false, false, false, false⟩ :=
  ⟨(c5_stat_classifier (str "/tmp/x: Is a directory")).1 (by decide),
   (c5_stat_classifier []).2.2.2.2.1 (by decide) (by decide) (by decide) (by decide)⟩

theorem lastIdx_eq_none (c : Char) (l : List Char) (h : c ∉ l) :
    lastIdx c l = none := by
  induction l with
  | nil => rfl
  | cons x xs ih =>
    have hx : ¬x = c := by
      rintro rfl
      exact h (List.mem_cons_self x xs)
    have hxs : c ∉ xs := fun hm => h (List.mem_cons_of_mem x hm)
    simp [lastIdx, ih hxs, hx]

theorem lastIdx_append_right (c : Char) (l m : List Char) (j : Nat)
    (h : lastIdx c m = some j) : lastIdx c (l ++ m) = some (l.length + j) := by
  induction l with
  | nil => simpa using h
  | cons x xs ih =>
    simp only [List.cons_append]
    rw [show lastIdx c (x :: (xs ++ m)) =
        (match lastIdx c (xs ++ m) with
         | some n => some (n + 1)
         | none => if x = c then some 0 else none) from rfl, ih]
    show some (xs.length + j + 1) = some ((x :: xs).length + j)
    simp only [List.length_cons]
    congr 1
    omega

theorem lastIdx_quoted (a b : List Char) (hb : chQuote ∉ b) :
    lastIdx chQuote (chQuote :: (a ++ chQuote :: b)) = some (a.length + 1) := by
  have h1 : lastIdx chQuote (chQuote :: b) = some 0 := by
    simp [lastIdx, lastIdx_eq_none chQuote b hb]
  have h2 := lastIdx_append_right chQuote (chQuote :: a) (chQuote :: b) 0 h1
  rw [show chQuote :: (a ++ chQuote :: b) = (chQuote :: a) ++ chQuote :: b from rfl]
  rw [h2]
  simp [List.length_cons]

theorem jsSubstr_zero (s : List Char) (m : Nat) (hm : m ≤ s.length) :
    jsSubstr s 0 (m : Int) = s.take m := by
  have hc : jsClampStart s 0 = 0 := by
    rw [jsClampStart, if_neg (by omega : ¬((0 : Int) < 0))]
    omega
  rw [jsSubstr, hc]
  have harg : (max 0 (min (m : Int) ((s.length : Int) - 0))).toNat = m := by omega
  rw [harg, show ((0 : Int)).toNat = 0 from rfl, List.drop_zero]

/-- Raw key of an info-dump line (src/index.js lines 176-177):
`line.substr(0, line.indexOf('='))`. -/
def infoRawKey (line : List Char) : List Char :=
  jsSubstr line 0 (jsIndexOfChar line '=')

/-- Raw value of an info-dump line (src/index.js line 178):
`line.substr(line.indexOf('=') + 1)`. -/
def infoRawValue (line : List Char) : List Char :=
  jsSubstrFrom line (jsIndexOfChar line '=' + 1)

/-- Key of an info-dump line after quote stripping (src/index.js lines
180-182): when the raw key starts and ends with a double quote, apply
`key.slice(1, -1)`. -/
def infoCookedKey (line : List Char) : List Char :=
  if (infoRawKey line).head? = some chQuote ∧ (infoRawKey line).getLast? = some chQuote
  then ((infoRawKey line).take ((infoRawKey line).length - 1)).drop 1
  else infoRawKey line

/-- Value of an info-dump line after quote handling (src/index.js lines
184-188): a value starting with a double quote becomes
`value.substring(1, value.lastIndexOf('"'))`; otherwise trailing whitespace
is removed (`value.replace(/\s+$/, '')`). -/
def infoCookedValue (line : List Char) : List Char :=
  if (infoRawValue line).head? = some chQuote
  then jsSubstring (infoRawValue line) 1 (jsLastIndexOfChar (infoRawValue line) chQuote)
  else jsTrimEnd (infoRawValue line)

/-- The key/value pair an info-dump line contributes. -/
def infoLineEntry (line : List Char) : List Char × List Char :=
  (infoCookedKey line, infoCookedValue line)

/-- JS object assignment `info[key] = value` on a string-keyed object
modelled as an insertion-ordered association list: an existing key keeps its
position and is overwritten, a new key is appended. -/
def objSet {β : Type} (m : List (List Char × β)) (k : List Char) (v : β) :
    List (List Char × β) :=
  if m.any (fun p => p.1 == k) then
    m.map (fun p => if p.1 == k then (k, v) else p)
  else m ++ [(k, v)]

/-- JS property lookup `info[key]` on the association-list object model. -/
def objGet {β : Type} (m : List (List Char × β)) (k : List Char) : Option β :=
  (m.find? (fun p => p.1 == k)).map (fun p => p.2)

/-- Info-dump parser of `VBoxManage.getInfo` (src/index.js lines 165-197):
split stdout on newlines and, for each nonempty line, store the line's
cooked key/value pair in the object. -/
def getInfoParse (stdout : List Char) : List (List Char × List Char) :=
  (splitChar '\n' stdout).foldl
    (fun info line =>
      if line.length > 0 then
        objSet info (infoLineEntry line).1 (infoLineEntry line).2
      else info) []

theorem infoRawKey_split (k v : List Char) (h : '=' ∉ k) :
    infoRawKey (k ++ '=' :: v) = k := by
  rw [infoRawKey, jsIndexOfChar_append_not_mem '=' k v h,
    jsSubstr_zero _ _ (by simp [List.length_append])]
  exact take_append_len _ _

theorem infoRawValue_split (k v : List Char) (h : '=' ∉ k) :
    infoRawValue (k ++ '=' :: v) = v := by
  rw [infoRawValue, jsIndexOfChar_append_not_mem '=' k v h, jsSubstrFrom_after]

theorem jsSubstring_quoted (a b : List Char) :
    jsSubstring (chQuote :: (a ++ chQuote :: b)) 1 ((a.length : Int) + 1) = a := by
  have hn : ((chQuote :: (a ++ chQuote :: b)).length : Int) =
      (a.length : Int) + (b.length : Int) + 2 := by
    simp only [List.length_cons, List.length_append]
    push_cast
    omega
  have h1 : jsClampIdx (chQuote :: (a ++ chQuote :: b)) 1 = 1 := by
    rw [jsClampIdx, hn]; omega
  have h2 : jsClampIdx (chQuote :: (a ++ chQuote :: b)) ((a.length : Int) + 1) =
      (a.length : Int) + 1 := by
    rw [jsClampIdx, hn]; omega
  rw [jsSubstring, h1, h2]
  have hmin : (min (1 : Int) ((a.length : Int) + 1)).toNat = 1 := by omega
  have hmax : (max (1 : Int) ((a.length : Int) + 1)).toNat = a.length + 1 := by omega
  rw [hmin, hmax,
    show chQuote :: (a ++ chQuote :: b) = (chQuote :: a) ++ chQuote :: b from rfl,
    show a.length + 1 = (chQuote :: a).length from by simp,
    take_append_len]
  rfl

theorem jsTrimEnd_split (s : List Char) :
    ∃ w, s = jsTrimEnd s ++ w ∧ ∀ c ∈ w, isJsWhitespace c = true := by
  refine ⟨(s.reverse.takeWhile isJsWhitespace).reverse, ?_, ?_⟩
  · rw [jsTrimEnd, ← List.reverse_append, List.takeWhile_append_dropWhile,
      List.reverse_reverse]
  · intro c hc
    exact List.mem_takeWhile_imp (List.mem_reverse.1 hc)

theorem objGet_map_update {β : Type} (m : List (List Char × β)) (k : List Char) (v : β)
    (hany : m.any (fun p => p.1 == k) = true) :
    objGet (m.map (fun p => if p.1 == k then (k, v) else p)) k = some v := by
  induction m with
  | nil => simp at hany
  | cons p rest ih =>
    by_cases hp : (p.1 == k) = true
    · rw [List.map_cons, if_pos hp, objGet,
        List.find?_cons_of_pos _ (by simp)]
      rfl
    · have hrest : rest.any (fun q => q.1 == k) = true := by
        rcases List.any_eq_true.1 hany with ⟨q, hq, hqk⟩
        rcases List.mem_cons.1 hq with rfl | hq2
        · exact absurd hqk hp
        · exact List.any_eq_true.2 ⟨q, hq2, hqk⟩
      rw [List.map_cons, if_neg hp, objGet,
        List.find?_cons_of_neg _ (by simpa using hp)]
      exact ih hrest

theorem objGet_append_new {β : Type} (m : List (List Char × β)) (k : List Char) (v : β)
    (hany : m.any (fun p => p.1 == k) = false) :
    objGet (m ++ [(k, v)]) k = some v := by
  induction m with
  | nil =>
    rw [List.nil_append, objGet, List.find?_cons_of_pos _ (by simp)]
    rfl
  | cons p rest ih =>
    have hboth := hany
    rw [List.any_cons, Bool.or_eq_false_iff] at hboth
    rw [List.cons_append, objGet, List.find?_cons_of_neg _ (by simp [hboth.1])]
    exact ih hboth.2

theorem objGet_objSet {β : Type} (m : List (List Char × β)) (k : List Char) (v : β) :
    objGet (objSet m k v) k = some v := by
  rw [objSet]
  split
  · next hany => exact objGet_map_update m k v hany
  · next hany => exact objGet_append_new m k v (Bool.eq_false_iff.2 hany)

theorem splitChar_no_sep (sep : Char) (l : List Char) (h : sep ∉ l) :
    splitChar sep l = [l] := by
  induction l with
  | nil => rfl
  | cons c rest ih =>
    have hc : ¬c = sep := by
      rintro rfl
      exact h (List.mem_cons_self c rest)
    have hrest : sep ∉ rest := fun hm => h (List.mem_cons_of_mem c hm)
    simp [splitChar, hc, ih hrest]

theorem getInfoParse_single (line : List Char) (hne : line ≠ []) (h : '\n' ∉ line) :
    getInfoParse line = [infoLineEntry line] := by
  rw [getInfoParse, splitChar_no_sep '\n' line h]
  have hlen : line.length > 0 := List.length_pos.2 hne
  simp only [List.foldl, if_pos hlen]
  rw [objSet]
  simp [objGet, infoLineEntry]

/-- C4: the info-dump parser splits each nonempty line on the first `=`; a
key wrapped in double quotes loses exactly one leading and one trailing
quote; a value starting with a double quote becomes the substring between the
first quote and the last quote of the value (last-quote-wins, stated with the
embedded quotes inside `a` and the terminator followed by quote-free `b`); an
unquoted value loses only trailing whitespace; and a later line's value for
the same key overwrites the earlier one in the resulting mapping. -/
theorem c4_getInfo_parse_rules :
    (∀ (mid v : List Char), '=' ∉ chQuote :: mid ++ [chQuote] →
      (infoLineEntry ((chQuote :: mid ++ [chQuote]) ++ '=' :: v)).1 = mid)
    ∧ (∀ (k v : List Char), '=' ∉ k →
        ¬(k.head? = some chQuote ∧ k.getLast? = some chQuote) →
      (infoLineEntry (k ++ '=' :: v)).1 = k)
    ∧ (∀ (k a b : List Char), '=' ∉ k → chQuote ∉ b →
      (infoLineEntry (k ++ '=' :: (chQuote :: (a ++ chQuote :: b)))).2 = a)
    ∧ (∀ (k v : List Char), '=' ∉ k → v.head? ≠ some chQuote →
      (infoLineEntry (k ++ '=' :: v)).2 = jsTrimEnd v)
    ∧ (∀ s : List Char, ∃ w, s = jsTrimEnd s ++ w ∧ ∀ c ∈ w, isJsWhitespace c = true)
    ∧ (∀ (m : List (List Char × List Char)) (k v1 v2 : List Char),
        objGet (objSet (objSet m k v1) k v2) k = some v2)
    ∧ (∀ line : List Char, line ≠ [] → '\n' ∉ line →
        getInfoParse line = [infoLineEntry line])
    ∧ getInfoParse (str "\"name\"=\"Ubuntu x64\"\nostype=\"Linux26_64\"\n") =
        [(str "name", str "Ubuntu x64"), (str "ostype", str "Linux26_64")] := by
  refine ⟨?_, ?_, ?_, ?_, jsTrimEnd_split,
    fun m k v1 v2 => objGet_objSet (objSet m k v1) k v2, getInfoParse_single, by decide⟩
  · intro mid v h
    show infoCookedKey ((chQuote :: mid ++ [chQuote]) ++ '=' :: v) = mid
    rw [infoCookedKey, infoRawKey_split _ v h,
      if_pos ⟨rfl, by
        rw [show chQuote :: mid ++ [chQuote] = (chQuote :: mid) ++ [chQuote] from rfl]
        exact List.getLast?_concat _⟩]
    have hl : (chQuote :: mid ++ [chQuote]).length - 1 = (chQuote :: mid).length := by
      simp
    rw [hl, show chQuote :: mid ++ [chQuote] = (chQuote :: mid) ++ [chQuote] from rfl,
      take_append_len]
    rfl
  · intro k v h hq
    show infoCookedKey (k ++ '=' :: v) = k
    rw [infoCookedKey, infoRawKey_split k v h, if_neg hq]
  · intro k a b h hb
    show infoCookedValue (k ++ '=' :: (chQuote :: (a ++ chQuote :: b))) = a
    rw [infoCookedValue, infoRawValue_split k _ h,
      if_pos (show (chQuote :: (a ++ chQuote :: b)).head? = some chQuote from rfl)]
    have hli : jsLastIndexOfChar (chQuote :: (a ++ chQuote :: b)) chQuote =
        (a.length : Int) + 1 := by
      rw [jsLastIndexOfChar, lastIdx_quoted a b hb]
      push_cast
      rfl
    rw [hli]
    exact jsSubstring_quoted a b
  · intro k v h hv
    show infoCookedValue (k ++ '=' :: v) = jsTrimEnd v
    rw [infoCookedValue, infoRawValue_split k v h, if_neg hv]

/-- C4 witness: the parser theorem applied at the concrete first line of the
info-dump example from the spec. -/
theorem c4_getInfo_parse_rules_witness :
    (infoLineEntry (str "\"name\"=\"Ubuntu x64\"")).1 = str "name"
    ∧ (infoLineEntry (str "\"name\"=\"Ubuntu x64\"")).2 = str "Ubuntu x64" := by
  constructor
  · have h := c4_getInfo_parse_rules.1 (str "name") (str "\"Ubuntu x64\"") (by decide)
    rw [show str "\"name\"=\"Ubuntu x64\"" =
      (chQuote :: str "name" ++ [chQuote]) ++ '=' :: str "\"Ubuntu x64\"" from by decide]
    exact h
  · have h := c4_getInfo_parse_rules.2.2.1 (chQuote :: str "name" ++ [chQuote])
      (str "Ubuntu x64") [] (by decide) (by decide)
    rw [show str "\"name\"=\"Ubuntu x64\"" =
      (chQuote :: str "name" ++ [chQuote]) ++
        '=' :: (chQuote :: (str "Ubuntu x64" ++ chQuote :: [])) from by decide]
    exact h

/-- Post-state of the caller's options object after `VBoxManage.clone`
(src/index.js lines 125-131) executes `options['name'] = newName` on it. -/
def cloneOptionsAfter (options : List (List Char × JVal)) (newName : List Char) :
    List (List Char × JVal) :=
  objSet options (str "name") (JVal.jstr newName)

/-- Post-state of the caller's options object after `VBoxManage.start`
(src/index.js lines 278-282) executes
`options['type'] = gui ? 'gui' : 'headless'` on it. -/
def startOptionsAfter (options : List (List Char × JVal)) (gui : Bool) :
    List (List Char × JVal) :=
  objSet options (str "type") (JVal.jstr (if gui then str "gui" else str "headless"))

/-- C9: clone writes the new name under the `name` key of the caller's
options object (appending the key when absent, so the object observably
changes), start writes the `type` key, and manage leaves the caller's command
array holding every positional token escaped followed by the appended option
tokens. -/
theorem c9_argument_mutation :
    (∀ (options : List (List Char × JVal)) (newName : List Char),
      objGet (cloneOptionsAfter options newName) (str "name") =
        some (JVal.jstr newName))
    ∧ (∀ (options : List (List Char × JVal)) (newName : List Char),
        objGet options (str "name") = none →
        cloneOptionsAfter options newName =
          options ++ [(str "name", JVal.jstr newName)]
        ∧ cloneOptionsAfter options newName ≠ options)
    ∧ (∀ (options : List (List Char × JVal)) (gui : Bool),
        objGet (startOptionsAfter options gui) (str "type") =
          some (JVal.jstr (if gui then str "gui" else str "headless")))
    ∧ (∀ (command : List (List Char)) (options : List (List Char × JVal)),
        GoodOptions options →
        manageB command options =
          some (command.map escapeArgB ++ optionTokens options)) := by
  refine ⟨fun options newName => objGet_objSet options _ _, ?_,
    fun options gui => objGet_objSet options _ _,
    fun command options h => manageBAux_good options (command.map escapeArgB) h⟩
  intro options newName hnone
  have hfind : options.find? (fun p => p.1 == str "name") = none := by
    rw [objGet] at hnone
    exact Option.map_eq_none'.1 hnone
  have hany : options.any (fun p => p.1 == str "name") = false := by
    rw [List.any_eq_false]
    intro p hp
    exact List.find?_eq_none.1 hfind p hp
  have happ : cloneOptionsAfter options newName =
      options ++ [(str "name", JVal.jstr newName)] := by
    rw [cloneOptionsAfter, objSet, if_neg (by simp [hany])]
  refine ⟨happ, ?_⟩
  rw [happ]
  intro heq
  have := congrArg List.length heq
  simp at this

/-- C9 witness: the mutation theorem applied at a concrete options object
without a `name` key. -/
theorem c9_argument_mutation_witness :
    cloneOptionsAfter [(str "register", JVal.jbool true)] (str "u2") =
      [(str "register", JVal.jbool true), (str "name", JVal.jstr (str "u2"))]
    ∧ cloneOptionsAfter [(str "register", JVal.jbool true)] (str "u2") ≠
      [(str "register", JVal.jbool true)] :=
  c9_argument_mutation.2.1 [(str "register", JVal.jbool true)] (str "u2") (by decide)

/-- Argument list built by `VBoxManage.copyToVm` (src/index.js lines 341-362). -/
def copyToVmArgs (vmname username password : List Char)
    (source : List (List Char)) (dest : List Char) (recursive : Bool) :
    List (List Char) :=
  [str "guestcontrol", vmname, str "copyto"]
    ++ (if username ≠ [] then [str "--username", chQuote :: (username ++ [chQuote])] else [])
    ++ (if password ≠ [] then [str "--password", chQuote :: (password ++ [chQuote])] else [])
    ++ (if recursive then [str "--recursive"] else [])
    ++ [str "--target-directory", dest]
    ++ source

/-- Argument list built by `VBoxManage.copyFromVm` (src/index.js lines 373-394). -/
def copyFromVmArgs (vmname username password : List Char)
    (source : List (List Char)) (dest : List Char) (recursive : Bool) :
    List (List Char) :=
  [str "guestcontrol", vmname, str "copyfrom"]
    ++ (if username ≠ [] then [str "--username", chQuote :: (username ++ [chQuote])] else [])
    ++ (if password ≠ [] then [str "--password", chQuote :: (password ++ [chQuote])] else [])
    ++ (if recursive then [str "--recursive"] else [])
    ++ [str "--target-directory", dest]
    ++ source

/-- Argument list built by `VBoxManage.mkdir` (src/index.js lines 404-423). -/
def mkdirArgs (vmname username password path : List Char) (parents : Bool) :
    List (List Char) :=
  [str "guestcontrol", vmname, str "mkdir"]
    ++ (if username ≠ [] then [str "--username", chQuote :: (username ++ [chQuote])] else [])
    ++ (if password ≠ [] then [str "--password", chQuote :: (password ++ [chQuote])] else [])
    ++ (if parents then [str "--parents"] else [])
    ++ [path]

/-- Argument list built by `VBoxManage.rmdir` (src/index.js lines 433-452). -/
def rmdirArgs (vmname username password path : List Char) (recursive : Bool) :
    List (List Char) :=
  [str "guestcontrol", vmname, str "rmdir"]
    ++ (if username ≠ [] then [str "--username", chQuote :: (username ++ [chQuote])] else [])
    ++ (if password ≠ [] then [str "--password", chQuote :: (password ++ [chQuote])] else [])
    ++ (if recursive then [str "--recursive"] else [])
    ++ [path]

/-- Argument list built by `VBoxManage.removeFile` (src/index.js lines 462-481). -/
def removeFileArgs (vmname username password path : List Char) (force : Bool) :
    List (List Char) :=
  [str "guestcontrol", vmname, str "removefile"]
    ++ (if username ≠ [] then [str "--username", chQuote :: (username ++ [chQuote])] else [])
    ++ (if password ≠ [] then [str "--password", chQuote :: (password ++ [chQuote])] else [])
    ++ (if force then [str "--force"] else [])
    ++ [path]

/-- Argument list built by `VBoxManage.mv` (src/index.js lines 491-508). -/
def mvArgs (vmname username password : List Char) (source : List (List Char))
    (dest : List Char) : List (List Char) :=
  [str "guestcontrol", vmname, str "mv"]
    ++ (if username ≠ [] then [str "--username", chQuote :: (username ++ [chQuote])] else [])
    ++ (if password ≠ [] then [str "--password", chQuote :: (password ++ [chQuote])] else [])
    ++ source
    ++ [dest]

/-- Argument list built by `VBoxManage.stat` before parsing (src/index.js
lines 517-531). -/
def statArgs (vmname username password path : List Char) : List (List Char) :=
  [str "guestcontrol", vmname, str "stat"]
    ++ (if username ≠ [] then [str "--username", chQuote :: (username ++ [chQuote])] else [])
    ++ (if password ≠ [] then [str "--password", chQuote :: (password ++ [chQuote])] else [])
    ++ [path]

/-- Argument list built by `VBoxManage.execOnVm` once the guest OS family is
known (src/index.js lines 559-594): credentials, `start` or `run`, the
OS-dependent shell dispatch, and the command joined with its parameters. -/
def execOnVmArgs (vmname username password cmd : List Char)
    (params : List (List Char)) (asyncFlag isWindows : Bool) : List (List Char) :=
  [str "guestcontrol", vmname]
    ++ (if username ≠ [] then [str "--username", chQuote :: (username ++ [chQuote])] else [])
    ++ (if password ≠ [] then [str "--password", chQuote :: (password ++ [chQuote])] else [])
    ++ (if asyncFlag then [str "start"] else [str "run"])
    ++ (if isWindows then [str "--exe", str "cmd.exe", str "--", str "cmd.exe", str "/c"]
        else [str "--exe", str "/bin/sh", str "--", str "/bin/sh", str "-c"])
    ++ [cmd ++ ' ' :: List.intercalate [' '] params]

/-- The credential tokens shared by all guest-control operations: each of
`--username` and `--password` is pushed, followed by the argument wrapped in
literal double quotes, exactly when the argument is truthy (nonempty). -/
def credentialArgs (username password : List Char) : List (List Char) :=
  (if username ≠ [] then [str "--username", chQuote :: (username ++ [chQuote])] else [])
    ++ (if password ≠ [] then [str "--password", chQuote :: (password ++ [chQuote])] else [])

theorem escapeArgB_append (xs ys : List Char) :
    escapeArgB (xs ++ ys) = escapeArgB xs ++ escapeArgB ys := by
  induction xs with
  | nil => simp [escapeArgB]
  | cons x xs ih => simp [escapeArgB, ih]

theorem flag_ne_quoted (u f : List Char) (hf : f.head? = some '-') :
    f ≠ chQuote :: (u ++ [chQuote]) := by
  intro heq
  rw [heq] at hf
  exact absurd (Option.some.inj hf) (by decide)

theorem mem_credentialArgs_username (u p : List Char) :
    str "--username" ∈ credentialArgs u p ↔ u ≠ [] := by
  constructor
  · intro hm
    by_contra hu
    rw [credentialArgs, hu, if_neg (by simp), List.nil_append] at hm
    by_cases hp : p ≠ []
    · rw [if_pos hp] at hm
      rcases List.mem_cons.1 hm with heq | hm2
      · exact absurd heq (by decide)
      · rcases List.mem_cons.1 hm2 with heq | hm3
        · exact flag_ne_quoted p (str "--username") (by decide) heq
        · simp at hm3
    · rw [if_neg hp] at hm
      simp at hm
  · intro hu
    rw [credentialArgs, if_pos hu]
    exact List.mem_append_left _ (List.mem_cons_self _ _)

theorem mem_credentialArgs_password (u p : List Char) :
    str "--password" ∈ credentialArgs u p ↔ p ≠ [] := by
  constructor
  · intro hm
    by_contra hp
    rw [credentialArgs, hp,
      if_neg (show ¬(([] : List Char) ≠ []) from by simp), List.append_nil] at hm
    by_cases hu : u ≠ []
    · rw [if_pos hu] at hm
      rcases List.mem_cons.1 hm with heq | hm2
      · exact absurd heq (by decide)
      · rcases List.mem_cons.1 hm2 with heq | hm3
        · exact flag_ne_quoted u (str "--password") (by decide) heq
        · simp at hm3
    · rw [if_neg hu] at hm
      simp at hm
  · intro hp
    rw [credentialArgs]
    exact List.mem_append_right _ (by rw [if_pos hp]; exact List.mem_cons_self _ _)

/-- C10: in every guest-control operation the `--username` / `--password`
tokens appear exactly when the corresponding argument is truthy (nonempty),
followed by the argument wrapped in literal double quotes; each of the eight
operations embeds this same credential segment; and the command builder's
escaper escapes the wrapped token again, turning the added quotes into
backslash-escaped quotes. -/
theorem c10_credential_flags :
    (∀ u p : List Char,
      (str "--username" ∈ credentialArgs u p ↔ u ≠ [])
      ∧ (str "--password" ∈ credentialArgs u p ↔ p ≠ []))
    ∧ (∀ u p : List Char, u ≠ [] → credentialArgs u p =
        str "--username" :: (chQuote :: (u ++ [chQuote])) ::
          (if p ≠ [] then [str "--password", chQuote :: (p ++ [chQuote])] else []))
    ∧ (∀ u p : List Char, u = [] → p ≠ [] →
        credentialArgs u p = [str "--password", chQuote :: (p ++ [chQuote])])
    ∧ (∀ u p : List Char, u = [] → p = [] → credentialArgs u p = [])
    ∧ (∀ (vm u p dest path cmd : List Char) (src params : List (List Char))
        (r parents force asyncF isWin : Bool),
      copyToVmArgs vm u p src dest r =
        [str "guestcontrol", vm, str "copyto"] ++ credentialArgs u p
          ++ ((if r then [str "--recursive"] else [])
            ++ [str "--target-directory", dest] ++ src)
      ∧ copyFromVmArgs vm u p src dest r =
        [str "guestcontrol", vm, str "copyfrom"] ++ credentialArgs u p
          ++ ((if r then [str "--recursive"] else [])
            ++ [str "--target-directory", dest] ++ src)
      ∧ mkdirArgs vm u p path parents =
        [str "guestcontrol", vm, str "mkdir"] ++ credentialArgs u p
          ++ ((if parents then [str "--parents"] else []) ++ [path])
      ∧ rmdirArgs vm u p path r =
        [str "guestcontrol", vm, str "rmdir"] ++ credentialArgs u p
          ++ ((if r then [str "--recursive"] else []) ++ [path])
      ∧ removeFileArgs vm u p path force =
        [str "guestcontrol", vm, str "removefile"] ++ credentialArgs u p
          ++ ((if force then [str "--force"] else []) ++ [path])
      ∧ mvArgs vm u p src dest =
        [str "guestcontrol", vm, str "mv"] ++ credentialArgs u p ++ (src ++ [dest])
      ∧ statArgs vm u p path =
        [str "guestcontrol", vm, str "stat"] ++ credentialArgs u p ++ [path]
      ∧ execOnVmArgs vm u p cmd params asyncF isWin =
        [str "guestcontrol", vm] ++ credentialArgs u p
          ++ ((if asyncF then [str "start"] else [str "run"])
            ++ (if isWin then
                  [str "--exe", str "cmd.exe", str "--", str "cmd.exe", str "/c"]
                else [str "--exe", str "/bin/sh", str "--", str "/bin/sh", str "-c"])
            ++ [cmd ++ ' ' :: List.intercalate [' '] params]))
    ∧ (∀ u : List Char, escapeArgB (chQuote :: (u ++ [chQuote])) =
        '\\' :: chQuote :: (escapeArgB u ++ ['\\', chQuote]))
    ∧ (∀ args : List (List Char), manageB args [] = some (args.map escapeArgB)) := by
  refine ⟨fun u p => ⟨mem_credentialArgs_username u p, mem_credentialArgs_password u p⟩,
    ?_, ?_, ?_, ?_, ?_, fun args => rfl⟩
  · intro u p hu
    rw [credentialArgs, if_pos hu]
    rfl
  · intro u p hu hp
    rw [credentialArgs, hu, if_neg (by simp), if_pos hp, List.nil_append]
  · intro u p hu hp
    rw [credentialArgs, hu, hp, if_neg (by simp), if_neg (by simp), List.nil_append]
  · intro vm u p dest path cmd src params r parents force asyncF isWin
    refine ⟨?_, ?_, ?_, ?_, ?_, ?_, ?_, ?_⟩ <;>
      simp [copyToVmArgs, copyFromVmArgs, mkdirArgs, rmdirArgs, removeFileArgs,
        mvArgs, statArgs, execOnVmArgs, credentialArgs, List.append_assoc]
  · intro u
    rw [show chQuote :: (u ++ [chQuote]) = [chQuote] ++ u ++ [chQuote] from by simp,
      escapeArgB_append, escapeArgB_append,
      show escapeArgB [chQuote] = ['\\', chQuote] from by decide]
    simp

/-- C10 witness: the credential theorem applied at concrete username and
password values. -/
theorem c10_credential_flags_witness :
    credentialArgs (str "user") [] =
      [str "--username", chQuote :: (str "user" ++ [chQuote])]
    ∧ credentialArgs [] (str "pw") =
      [str "--password", chQuote :: (str "pw" ++ [chQuote])] := by
  constructor
  · have h := c10_credential_flags.2.1 (str "user") [] (by decide)
    rw [h]
    decide
  · exact c10_credential_flags.2.2.1 [] (str "pw") (by decide) (by decide)
